import Mathlib

/-!
Verification development for the `crd_watcher` example controller.

The example (`src/examples/crd_watcher.rs`) wires two custom resource
kinds — `MainThing` (primary) and `RefererThing` (secondary) — into a
level-triggered reconciliation controller: secondary events are mapped
through a pure closure to primary object keys, a deduplicating work
queue coalesces those keys, and a driver invokes `reconcile_main_thing`
on each dequeued key, routing errors through `error_policy`.

The data model and the example-level functions below are shallow
embeddings of the Rust source.  The engine itself (work queue, driver
loop) is not part of this repository's sources, so it is modelled from
the specification where a claim needs it; those definitions say so in
their doc comments.
-/

namespace CrdWatcher

/-- Kubernetes object metadata, restricted to the fields the example
touches.  The Rust field `namespace` is a Lean keyword, so it is
rendered as `ns`. -/
structure ObjectMeta where
  name : Option String
  ns : Option String
  deriving DecidableEq, Repr

/-- `MainThingSpec` — the primary resource's spec is empty. -/
structure MainThingSpec where
  deriving DecidableEq, Repr

/-- The primary custom resource `MainThing` (group `clux.dev`, `v1`). -/
structure MainThing where
  metadata : ObjectMeta
  spec : MainThingSpec
  deriving DecidableEq, Repr

/-- `RefererThingSpec`: a reference to a `MainThing` by name, an optional
namespace override, and an integer payload (`i32` in the source). -/
structure RefererThingSpec where
  main_thing_name : String
  main_thing_namespace : Option String
  value : Int
  deriving DecidableEq, Repr

/-- The secondary custom resource `RefererThing`. -/
structure RefererThing where
  metadata : ObjectMeta
  spec : RefererThingSpec
  deriving DecidableEq, Repr

/-- `ObjectRef<MainThing>` from `kube::runtime::reflector`: the key of a
primary object.  The Rust type carries the kind in its type parameter;
here it is an explicit field. -/
structure ObjectRef where
  kind : String
  name : String
  ns : Option String
  deriving DecidableEq, Repr

/-- `kube::runtime::controller::Action`: either wait for the next change
event or requeue after a duration (here in whole seconds). -/
inductive Action where
  | awaitChange : Action
  | requeue (secs : Nat) : Action
  deriving DecidableEq, Repr

/-- The example's `Error` type: a transparent wrapper over `anyhow::Error`,
modelled as its message. -/
structure Error where
  msg : String
  deriving DecidableEq, Repr

/-- `ResourceExt::name_any`: the object's name, or `""` when absent. -/
def MainThing.name_any (m : MainThing) : String :=
  m.metadata.name.getD ""

/-- `ResourceExt::namespace` for the secondary object. -/
def RefererThing.namespace_of (o : RefererThing) : Option String :=
  o.metadata.ns

/-- The mapper closure passed to `.watches(referer_thing_api, ..)`
(src/examples/crd_watcher.rs lines 65–69).  The Rust closure first
evaluates `o.namespace().expect("referer thing should always be namespaced")`
— a panic when the secondary object carries no namespace, modelled as
`Except.error` with the panic message — and then builds
`ObjectRef::new(&o.spec.main_thing_name)
  .within(o.spec.main_thing_namespace.as_deref().unwrap_or(&current_namespace))`,
returning `Some(object_ref)`. -/
def watches_mapper (o : RefererThing) : Except String (Option ObjectRef) :=
  match o.namespace_of with
  | none => Except.error "referer thing should always be namespaced"
  | some current_namespace =>
      Except.ok (some
        { kind := "MainThing"
          name := o.spec.main_thing_name
          ns := some (o.spec.main_thing_namespace.getD current_namespace) })

/-- `reconcile_main_thing` (lines 103–108).  The body logs, sleeps one
millisecond and returns `Ok(Action::await_change())`.  State the function
with explicit log-state passing so that the absence of hidden mutable
state is part of the embedding: the result is the outcome paired with
the log extended by the emitted line. -/
def reconcile_main_thing (log : List String) (resource : MainThing)
    (_context : Unit) : Except Error Action × List String :=
  (Except.ok Action.awaitChange, log ++ ["Reconciling " ++ resource.name_any])

/-- `error_policy` (lines 110–112): every error yields
`Action::requeue(Duration::from_secs(15))`. -/
def error_policy (_resource : MainThing) (_error : Error) (_context : Unit) :
    Action :=
  Action.requeue 15

namespace WorkQueue

/-- Modelled from the spec: the engine's Work Queue is not part of this
repository's sources (only the example calling into it is), so its state
is taken from §4.3 and the design note in §9: an arena of records
`key → (pending-time, in-flight-flag, dirty-flag)`.  `pending` lists the
work items (key with earliest-eligible-time), `inFlight` the keys handed
out by `dequeue` and not yet released by `done`, and `dirty` the in-flight
keys that were re-enqueued while in-flight. -/
structure State (K : Type) where
  pending : List (K × Nat)
  inFlight : List K
  dirty : List K
  deriving DecidableEq, Repr

variable {K : Type} [DecidableEq K]

/-- The empty queue. -/
def State.empty : State K := ⟨[], [], []⟩

/-- The keys currently pending. -/
def pendingKeys (s : State K) : List K := s.pending.map Prod.fst

/-- The earliest-eligible-time recorded for a key, when pending. -/
def lookupPending (s : State K) (k : K) : Option Nat :=
  (s.pending.find? (fun p => decide (p.1 = k))).map Prod.snd

/-- How many pending work items carry the key. -/
def pendingCount (s : State K) (k : K) : Nat :=
  (s.pending.filter (fun p => decide (p.1 = k))).length

/-- Modelled from the spec: `enqueue(key)` adds the key for immediate
processing (eligible at `now`) if not already pending, and is a no-op if
already pending; an enqueue for a key that is in-flight marks the key
dirty so that `done` re-admits it (§4.3, §9). -/
def enqueue (s : State K) (k : K) (now : Nat) : State K :=
  if k ∈ s.inFlight then
    if k ∈ s.dirty then s else { s with dirty := k :: s.dirty }
  else if (lookupPending s k).isSome then s
  else { s with pending := (k, now) :: s.pending }

/-- Replace the eligible time of the pending entries for a key. -/
def setTime (l : List (K × Nat)) (k : K) (t : Nat) : List (K × Nat) :=
  l.map (fun p => if p.1 = k then (k, t) else p)

/-- Modelled from the spec: `enqueue_after(key, delay)` schedules the key
no earlier than `now + delay`; if the key is already pending, the earlier
of the existing and the requested eligible time wins (§4.3); for an
in-flight key the re-enqueue is recorded on the dirty flag as for
`enqueue`. -/
def enqueue_after (s : State K) (k : K) (delay now : Nat) : State K :=
  if k ∈ s.inFlight then
    if k ∈ s.dirty then s else { s with dirty := k :: s.dirty }
  else
    match lookupPending s k with
    | some t0 => { s with pending := setTime s.pending k (min t0 (now + delay)) }
    | none => { s with pending := (k, now + delay) :: s.pending }

/-- Modelled from the spec: `dequeue` hands out a ready key, removing it
from pending state and marking it in-flight (§4.3).  The eligibility
side-condition (`t ≤ now`) lives in the reachability relation. -/
def dequeue (s : State K) (k : K) : State K :=
  { pending := s.pending.filter (fun p => decide (p.1 ≠ k))
    inFlight := k :: s.inFlight
    dirty := s.dirty }

/-- Modelled from the spec: `done(key)` marks in-flight processing
finished; if the key was re-enqueued while in-flight (dirty flag set),
it is re-admitted immediately eligible (eligible time `now`) (§4.3, §9). -/
def markDone (s : State K) (k : K) (now : Nat) : State K :=
  if k ∈ s.dirty then
    { pending := (k, now) :: s.pending
      inFlight := s.inFlight.filter (fun j => decide (j ≠ k))
      dirty := s.dirty.filter (fun j => decide (j ≠ k)) }
  else
    { s with inFlight := s.inFlight.filter (fun j => decide (j ≠ k)) }

/-- The states the Work Queue can reach from empty through its public
operations.  `dequeue` requires an eligible pending entry; `done`
requires the key to be in-flight. -/
inductive Reachable : State K → Prop where
  | init : Reachable State.empty
  | enq {s : State K} (k : K) (now : Nat) :
      Reachable s → Reachable (enqueue s k now)
  | enqAfter {s : State K} (k : K) (delay now : Nat) :
      Reachable s → Reachable (enqueue_after s k delay now)
  | deq {s : State K} (k : K) (t now : Nat) :
      Reachable s → lookupPending s k = some t → t ≤ now →
      Reachable (dequeue s k)
  | fin {s : State K} (k : K) (now : Nat) :
      Reachable s → k ∈ s.inFlight → Reachable (markDone s k now)

/-- The structural invariant: pending keys are pairwise distinct, no
pending key is simultaneously in-flight, and only in-flight keys are
dirty. -/
def Inv (s : State K) : Prop :=
  (pendingKeys s).Nodup ∧
    (∀ k ∈ pendingKeys s, k ∉ s.inFlight) ∧
    (∀ k ∈ s.dirty, k ∈ s.inFlight)


end WorkQueue

/-- Modelled from the spec: the Reconcile Outcome (§3) — the driver's
interpretation of one reconcile invocation: Converged, RequeueAfter, or
Error routed through the Error Policy. -/
inductive Outcome where
  | converged : Outcome
  | requeueAfter (d : Nat) : Outcome
  | failed (e : Error) : Outcome
  deriving DecidableEq, Repr

/-- The requeue duration carried by an `Action` (seconds). -/
def backoff_of : Action → Nat
  | Action.awaitChange => 0
  | Action.requeue d => d

/-- Modelled from the spec: one iteration of the Reconciler Driver loop
(§4.4) for a dequeued key — the driver itself is engine code outside this
repository's sources.  It fetches the current primary object by key (a
miss is treated as Converged: no error, no requeue), otherwise invokes
`reconcile_main_thing` and interprets the result: `Ok(await_change)` →
Converged, `Ok(requeue d)` → `enqueue_after(key, d)`, `Err e` →
`enqueue_after(key, error_policy(obj, e))`. -/
def driver_step (store : ObjectRef → Option MainThing) (k : ObjectRef)
    (q : WorkQueue.State ObjectRef) (now : Nat) :
    Outcome × WorkQueue.State ObjectRef :=
  match store k with
  | none => (Outcome.converged, q)
  | some obj =>
    match (reconcile_main_thing [] obj ()).fst with
    | Except.ok Action.awaitChange => (Outcome.converged, q)
    | Except.ok (Action.requeue d) =>
        (Outcome.requeueAfter d, WorkQueue.enqueue_after q k d now)
    | Except.error e =>
        (Outcome.failed e,
          WorkQueue.enqueue_after q k (backoff_of (error_policy obj e ())) now)

/-- An observable event of the end-to-end scenario: a patch setting the
referer's integer field, or a completed reconcile of a primary object. -/
inductive TraceEvent where
  | patch (value : Int) : TraceEvent
  | reconcile (mainName : String) : TraceEvent
  deriving DecidableEq, Repr

/-- The `RefererThing` instance as it stands in the cluster after the
patch setting `value := v`: `ensure_crds` (lines 152–164) creates it as
`my-referer` in the `default` namespace, referencing `my-main-thing`
with no namespace override; the patches of `run_iteration` only change
`value`. -/
def refererAt (v : Int) : RefererThing :=
  { metadata := { name := some "my-referer", ns := some "default" }
    spec := { main_thing_name := "my-main-thing"
              main_thing_namespace := none
              value := v } }

/-- Modelled from the spec: the engine's delivery of one patch — the
watch stream emits one modified event for the patched secondary object,
`watches_mapper` projects it to its primary keys, and the queue/driver
coalesce them into exactly one reconcile, which `run_iteration` awaits
(line 94, `stream.next().await`) before issuing the next patch. -/
def deliver (o : RefererThing) : List TraceEvent :=
  match watches_mapper o with
  | Except.ok (some ref) => [TraceEvent.reconcile ref.name]
  | _ => []

/-- The patch loop of `run_iteration` (lines 83–97): `for i in 1..10`,
patch `value := i` on `my-referer`, then await the resulting reconcile
before continuing. -/
def run_iteration_trace : List TraceEvent :=
  (List.range' 1 9).flatMap
    (fun i => TraceEvent.patch (Int.ofNat i) :: deliver (refererAt (Int.ofNat i)))

/-- Does the event record a completed reconcile of the `MainThing`
instance `my-main-thing`? -/
def is_main_reconcile (ev : TraceEvent) : Bool :=
  match ev with
  | TraceEvent.reconcile n => n = "my-main-thing"
  | _ => false

/-- A `RefererThing` carrying no namespace of its own: the mapper's
`expect` fires on it.  Its reference has no namespace override either,
so the owning-primary reference is unresolvable. -/
def orphanReferer : RefererThing :=
  { metadata := { name := some "orphan-referer", ns := none }
    spec := { main_thing_name := "my-main-thing"
              main_thing_namespace := none
              value := 0 } }

namespace WorkQueue

variable {K : Type} [DecidableEq K]

lemma find?_key_eq_none_iff (l : List (K × Nat)) (k : K) :
    l.find? (fun p => decide (p.1 = k)) = none ↔ k ∉ l.map Prod.fst := by
  induction l with
  | nil => simp
  | cons p tl ih =>
    by_cases h : p.1 = k
    · rw [List.find?_cons_of_pos _ (by simpa using h)]
      simp [h]
    · rw [List.find?_cons_of_neg _ (by simpa using h), ih]
      simp only [List.map_cons, List.mem_cons]
      constructor
      · intro hk hor
        rcases hor with he | hm
        · exact h he.symm
        · exact hk hm
      · intro hk hm
        exact hk (Or.inr hm)

lemma lookupPending_isSome_iff (s : State K) (k : K) :
    (lookupPending s k).isSome ↔ k ∈ pendingKeys s := by
  unfold lookupPending pendingKeys
  cases h : s.pending.find? (fun p => decide (p.1 = k)) with
  | none =>
    have hk := (find?_key_eq_none_iff s.pending k).mp h
    rw [Option.map_none']
    exact iff_of_false (by simp) hk
  | some p =>
    rw [Option.map_some']
    have hmem := List.mem_of_find?_eq_some h
    have hp : p.1 = k := by simpa using List.find?_some h
    exact iff_of_true rfl (hp ▸ List.mem_map_of_mem Prod.fst hmem)

lemma lookupPending_eq_none_iff (s : State K) (k : K) :
    lookupPending s k = none ↔ k ∉ pendingKeys s := by
  rw [← lookupPending_isSome_iff]
  cases lookupPending s k <;> simp

omit [DecidableEq K] in
lemma pendingKeys_cons (s : State K) (k : K) (t : Nat) :
    pendingKeys { s with pending := (k, t) :: s.pending } = k :: pendingKeys s :=
  rfl

lemma enqueue_inv {s : State K} (k : K) (now : Nat) (h : Inv s) :
    Inv (enqueue s k now) := by
  obtain ⟨hnd, hdis, hdin⟩ := h
  unfold enqueue
  by_cases hin : k ∈ s.inFlight
  · rw [if_pos hin]
    by_cases hd : k ∈ s.dirty
    · rw [if_pos hd]; exact ⟨hnd, hdis, hdin⟩
    · rw [if_neg hd]
      refine ⟨hnd, hdis, ?_⟩
      intro j hj
      rcases List.mem_cons.mp hj with rfl | hj
      · exact hin
      · exact hdin j hj
  · rw [if_neg hin]
    by_cases hp : (lookupPending s k).isSome = true
    · rw [if_pos hp]; exact ⟨hnd, hdis, hdin⟩
    · rw [if_neg hp]
      have hk : k ∉ pendingKeys s := fun hm =>
        hp ((lookupPending_isSome_iff s k).mpr hm)
      refine ⟨?_, ?_, hdin⟩
      · rw [pendingKeys_cons]
        exact List.nodup_cons.mpr ⟨hk, hnd⟩
      · intro j hj
        rw [pendingKeys_cons] at hj
        rcases List.mem_cons.mp hj with rfl | hj
        · exact hin
        · exact hdis j hj

lemma setTime_map_fst (l : List (K × Nat)) (k : K) (t : Nat) :
    (setTime l k t).map Prod.fst = l.map Prod.fst := by
  induction l with
  | nil => rfl
  | cons p tl ih =>
    unfold setTime at ih ⊢
    by_cases h : p.1 = k
    · simp [h, ih]
    · simp [h, ih]

lemma pendingKeys_setTime (s : State K) (k : K) (t : Nat) :
    pendingKeys { s with pending := setTime s.pending k t } = pendingKeys s :=
  setTime_map_fst s.pending k t

lemma enqueue_after_inv {s : State K} (k : K) (delay now : Nat) (h : Inv s) :
    Inv (enqueue_after s k delay now) := by
  obtain ⟨hnd, hdis, hdin⟩ := h
  unfold enqueue_after
  by_cases hin : k ∈ s.inFlight
  · rw [if_pos hin]
    by_cases hd : k ∈ s.dirty
    · rw [if_pos hd]; exact ⟨hnd, hdis, hdin⟩
    · rw [if_neg hd]
      refine ⟨hnd, hdis, ?_⟩
      intro j hj
      rcases List.mem_cons.mp hj with rfl | hj
      · exact hin
      · exact hdin j hj
  · rw [if_neg hin]
    cases hl : lookupPending s k with
    | some t0 =>
      simp only
      refine ⟨?_, ?_, hdin⟩
      · rw [pendingKeys_setTime]; exact hnd
      · intro j hj
        rw [pendingKeys_setTime] at hj
        exact hdis j hj
    | none =>
      simp only
      have hk : k ∉ pendingKeys s := (lookupPending_eq_none_iff s k).mp hl
      refine ⟨?_, ?_, hdin⟩
      · rw [pendingKeys_cons]
        exact List.nodup_cons.mpr ⟨hk, hnd⟩
      · intro j hj
        rw [pendingKeys_cons] at hj
        rcases List.mem_cons.mp hj with rfl | hj
        · exact hin
        · exact hdis j hj

lemma dequeue_inv {s : State K} (k : K) (h : Inv s) : Inv (dequeue s k) := by
  obtain ⟨hnd, hdis, hdin⟩ := h
  refine ⟨?_, ?_, ?_⟩
  · exact ((List.filter_sublist s.pending).map Prod.fst).nodup hnd
  · intro j hj
    have : ∃ p ∈ s.pending, p.1 ≠ k ∧ p.1 = j := by
      simp only [dequeue, pendingKeys, List.mem_map, List.mem_filter] at hj
      obtain ⟨p, ⟨hp, hne⟩, he⟩ := hj
      exact ⟨p, hp, by simpa using hne, he⟩
    obtain ⟨p, hp, hne, he⟩ := this
    intro hmem
    rcases List.mem_cons.mp hmem with rfl | hmem
    · exact hne he
    · exact hdis j (he ▸ List.mem_map_of_mem Prod.fst hp) hmem
  · intro j hj
    exact List.mem_cons_of_mem _ (hdin j hj)

lemma markDone_inv {s : State K} (k : K) (now : Nat) (h : Inv s) :
    Inv (markDone s k now) := by
  obtain ⟨hnd, hdis, hdin⟩ := h
  unfold markDone
  by_cases hd : k ∈ s.dirty
  · rw [if_pos hd]
    have hkin : k ∈ s.inFlight := hdin k hd
    have hkp : k ∉ pendingKeys s := fun hm => hdis k hm hkin
    refine ⟨?_, ?_, ?_⟩
    · exact List.nodup_cons.mpr ⟨hkp, hnd⟩
    · intro j hj
      rcases List.mem_cons.mp hj with rfl | hj
      · simp [List.mem_filter]
      · intro hmem
        exact hdis j hj (List.mem_of_mem_filter hmem)
    · intro j hj
      have hjd : j ∈ s.dirty := List.mem_of_mem_filter hj
      have hne : j ≠ k := by
        have := (List.mem_filter.mp hj).2
        simpa using this
      exact List.mem_filter.mpr ⟨hdin j hjd, by simpa using hne⟩
  · rw [if_neg hd]
    refine ⟨hnd, ?_, ?_⟩
    · intro j hj hmem
      exact hdis j hj (List.mem_of_mem_filter hmem)
    · intro j hj
      have hne : j ≠ k := fun he => hd (he ▸ hj)
      exact List.mem_filter.mpr ⟨hdin j hj, by simpa using hne⟩

lemma find?_setTime (l : List (K × Nat)) (k : K) (t : Nat)
    (h : (l.find? (fun p => decide (p.1 = k))).isSome) :
    (setTime l k t).find? (fun p => decide (p.1 = k)) = some (k, t) := by
  induction l with
  | nil => simp at h
  | cons p tl ih =>
    rw [show setTime (p :: tl) k t =
      (if p.1 = k then (k, t) else p) :: setTime tl k t from rfl]
    by_cases hp : p.1 = k
    · rw [if_pos hp]
      exact List.find?_cons_of_pos _ (by simp)
    · rw [if_neg hp, List.find?_cons_of_neg _ (by simpa using hp)]
      rw [List.find?_cons_of_neg _ (by simpa using hp)] at h
      exact ih h

lemma lookupPending_head (pend : List (K × Nat)) (infl drt : List K)
    (k : K) (t : Nat) :
    lookupPending ⟨(k, t) :: pend, infl, drt⟩ k = some t := by
  unfold lookupPending
  rw [show (State.mk ((k, t) :: pend) infl drt).pending = (k, t) :: pend from rfl]
  rw [List.find?_cons_of_pos _ (by simp)]
  rfl

lemma lookupPending_dequeue (s : State K) (k : K) :
    lookupPending (dequeue s k) k = none := by
  unfold lookupPending dequeue
  rw [List.find?_eq_none.mpr ?_]
  · rfl
  · intro p hp
    have h2 := (List.mem_filter.mp hp).2
    simpa using h2

lemma pendingCount_eq_zero {s : State K} {k : K} (h : k ∉ pendingKeys s) :
    pendingCount s k = 0 := by
  unfold pendingCount
  rw [List.filter_eq_nil_iff.mpr ?_]
  · rfl
  · intro p hp
    have : p.1 ≠ k := fun he => h (he ▸ List.mem_map_of_mem Prod.fst hp)
    simpa using this

lemma pendingCount_head (pend : List (K × Nat)) (infl drt : List K)
    (k : K) (t : Nat) :
    pendingCount ⟨(k, t) :: pend, infl, drt⟩ k =
      pendingCount ⟨pend, infl, drt⟩ k + 1 := by
  unfold pendingCount
  rw [show (State.mk ((k, t) :: pend) infl drt).pending = (k, t) :: pend from rfl]
  rw [List.filter_cons_of_pos (by simp)]
  rfl

lemma reachable_inv {s : State K} (h : Reachable s) : Inv s := by
  induction h with
  | init =>
    exact ⟨List.nodup_nil, fun j hj => absurd hj (List.not_mem_nil j),
      fun j hj => absurd hj (List.not_mem_nil j)⟩
  | enq k now _ ih => exact enqueue_inv k now ih
  | enqAfter k delay now _ ih => exact enqueue_after_inv k delay now ih
  | deq k t now _ _ _ ih => exact dequeue_inv k ih
  | fin k now _ _ ih => exact markDone_inv k now ih

end WorkQueue

/-! ## Claim theorems -/

/-- C3: the Event Mapper is a pure function of the secondary-object
event: for every `RefererThing` event (every such event carries the
object's namespace, as the kind is namespaced) it returns the key with
kind `MainThing`, namespace the spec's `main_thing_namespace` override
when present and otherwise the referer's own namespace, and name the
spec's `main_thing_name`; applying it twice to the same event yields the
identical key set, with no I/O. -/
theorem watches_mapper_pure_key (o : RefererThing) (cns : String)
    (h : o.metadata.ns = some cns) :
    watches_mapper o =
      Except.ok (some
        { kind := "MainThing"
          name := o.spec.main_thing_name
          ns := some (o.spec.main_thing_namespace.getD cns) }) ∧
    watches_mapper o = watches_mapper o := by
  refine ⟨?_, rfl⟩
  unfold watches_mapper RefererThing.namespace_of
  rw [h]

/-- Witness for C3 at the concrete referer of the example. -/
theorem watches_mapper_pure_key_witness :
    watches_mapper (refererAt 3) =
      Except.ok (some
        { kind := "MainThing"
          name := (refererAt 3).spec.main_thing_name
          ns := some ((refererAt 3).spec.main_thing_namespace.getD "default") }) ∧
    watches_mapper (refererAt 3) = watches_mapper (refererAt 3) :=
  watches_mapper_pure_key (refererAt 3) "default" rfl

/-- C4: the default Error Policy returns a backoff of exactly 15 seconds
for every (object, error, context) triple, independent of the error's
content, the object, and any prior failures. -/
theorem error_policy_fixed_backoff (r : MainThing) (e : Error) (c : Unit) :
    error_policy r e c = Action.requeue 15 :=
  rfl

/-- C5 counterexample: on a secondary object whose reference cannot be
resolved (no namespace of its own, no override), the mapper does not
return zero keys — it panics (`expect`), i.e. produces the panic error
and no `Ok` result at all. -/
theorem watches_mapper_orphan_cex :
    watches_mapper orphanReferer =
      Except.error "referer thing should always be namespaced" ∧
    ∀ r : Option ObjectRef, watches_mapper orphanReferer ≠ Except.ok r := by
  refine ⟨rfl, ?_⟩
  intro r hr
  rw [show watches_mapper orphanReferer =
    Except.error "referer thing should always be namespaced" from rfl] at hr
  exact Except.noConfusion hr

/-- C5 amended: for every secondary-object event without a resolvable
namespace, the Event Mapper panics with
`referer thing should always be namespaced` (the event is lost by a
panic, not silently dropped); it never returns a zero-key result. -/
theorem watches_mapper_orphan_amended (o : RefererThing)
    (h : o.metadata.ns = none) :
    watches_mapper o =
      Except.error "referer thing should always be namespaced" ∧
    ∀ r : Option ObjectRef, watches_mapper o ≠ Except.ok r := by
  have he : watches_mapper o =
      Except.error "referer thing should always be namespaced" := by
    unfold watches_mapper RefererThing.namespace_of
    rw [h]
  refine ⟨he, ?_⟩
  intro r hr
  rw [he] at hr
  exact Except.noConfusion hr

/-- Witness for the amended C5 at the concrete orphan referer. -/
theorem watches_mapper_orphan_amended_witness :
    watches_mapper orphanReferer =
      Except.error "referer thing should always be namespaced" ∧
    ∀ r : Option ObjectRef, watches_mapper orphanReferer ≠ Except.ok r :=
  watches_mapper_orphan_amended orphanReferer rfl

/-- C6: when the driver dequeues a key and the fetch of the primary
object misses (the object was deleted), the outcome is Converged: no
error is produced and the queue is left unchanged (no requeue for that
key). -/
theorem driver_fetch_miss_converged (store : ObjectRef → Option MainThing)
    (k : ObjectRef) (q : WorkQueue.State ObjectRef) (now : Nat)
    (h : store k = none) :
    driver_step store k q now = (Outcome.converged, q) := by
  unfold driver_step
  rw [h]

/-- Witness for C6 on the empty store. -/
theorem driver_fetch_miss_converged_witness :
    driver_step (fun _ => none)
        { kind := "MainThing", name := "my-main-thing", ns := some "default" }
        WorkQueue.State.empty 0 =
      (Outcome.converged, WorkQueue.State.empty) :=
  driver_fetch_miss_converged (fun _ => none)
    { kind := "MainThing", name := "my-main-thing", ns := some "default" }
    WorkQueue.State.empty 0 rfl

/-- C9: the reconcile function is idempotent in its result — running it
twice in a row on the same unchanged primary object with the same
context yields the same outcome both times (the only state it touches is
the log, which does not influence the outcome). -/
theorem reconcile_main_thing_idempotent (log : List String) (r : MainThing)
    (c : Unit) :
    (reconcile_main_thing log r c).fst =
      (reconcile_main_thing (reconcile_main_thing log r c).snd r c).fst :=
  rfl

/-- C10: `reconcile_main_thing` returns `Ok(Action::await_change())` for
every input object and context; it never returns `Err`, so the driver's
error-policy branch is unreachable for this reconciler. -/
theorem reconcile_main_thing_never_errs (log : List String) (r : MainThing)
    (c : Unit) (store : ObjectRef → Option MainThing) (k : ObjectRef)
    (q : WorkQueue.State ObjectRef) (now : Nat) :
    (reconcile_main_thing log r c).fst = Except.ok Action.awaitChange ∧
    ∀ e : Error, (driver_step store k q now).fst ≠ Outcome.failed e := by
  refine ⟨rfl, ?_⟩
  intro e h
  cases hst : store k with
  | none => simp [driver_step, hst] at h
  | some obj => simp [driver_step, hst, reconcile_main_thing] at h

open WorkQueue

/-- C2: in every reachable Work Queue state, at most one pending
(non-delayed) work item exists per key — the pending keys are pairwise
distinct — and `enqueue(key)` on an already-pending key leaves the state
unchanged.  All operations preserve this, since every reachable state
arises from the operations. -/
theorem at_most_one_pending_per_key {K : Type} [DecidableEq K]
    (s : State K) (k : K) (now : Nat) (hs : Reachable s) :
    (pendingKeys s).Nodup ∧
      ((lookupPending s k).isSome → enqueue s k now = s) := by
  obtain ⟨hnd, hdis, _⟩ := reachable_inv hs
  refine ⟨hnd, ?_⟩
  intro hp
  have hkp : k ∈ pendingKeys s := (lookupPending_isSome_iff s k).mp hp
  have hin : k ∉ s.inFlight := hdis k hkp
  unfold enqueue
  rw [if_neg hin, if_pos hp]

/-- Witness for C2: a second enqueue of an already-pending key is a
no-op on a concrete reachable state. -/
theorem at_most_one_pending_per_key_witness :
    enqueue (enqueue (State.empty : State Nat) 0 0) 0 5 =
      enqueue (State.empty : State Nat) 0 0 :=
  (at_most_one_pending_per_key (enqueue (State.empty : State Nat) 0 0) 0 5
    (Reachable.enq 0 0 Reachable.init)).2 rfl

/-- C7: `enqueue_after(key, delay)` makes a fresh key eligible exactly at
`now + delay` (never earlier), and for an already-pending key the
resulting eligible time is the minimum of the existing and the requested
time: an earlier existing time is kept, a later one is lowered. -/
theorem enqueue_after_min_eligible {K : Type} [DecidableEq K]
    (s : State K) (k : K) (delay now : Nat) (h : k ∉ s.inFlight) :
    (lookupPending s k = none →
      lookupPending (enqueue_after s k delay now) k = some (now + delay)) ∧
    ∀ t0, lookupPending s k = some t0 →
      lookupPending (enqueue_after s k delay now) k =
        some (min t0 (now + delay)) := by
  constructor
  · intro hl
    unfold enqueue_after
    rw [if_neg h]
    simp only [hl]
    exact lookupPending_head s.pending s.inFlight s.dirty k (now + delay)
  · intro t0 hl
    have hsome : (s.pending.find? (fun p => decide (p.1 = k))).isSome := by
      unfold lookupPending at hl
      cases hfind : s.pending.find? (fun p => decide (p.1 = k)) with
      | none => rw [hfind] at hl; simp at hl
      | some p => rfl
    unfold enqueue_after
    rw [if_neg h]
    simp only [hl]
    unfold lookupPending
    rw [show ({ s with pending := setTime s.pending k (min t0 (now + delay)) } :
      State K).pending = setTime s.pending k (min t0 (now + delay)) from rfl]
    rw [find?_setTime s.pending k (min t0 (now + delay)) hsome]
    rfl

/-- Witness for C7: scheduling a fresh key at time 2 with delay 7 makes
it eligible at 9. -/
theorem enqueue_after_min_eligible_witness :
    lookupPending (enqueue_after (State.empty : State Nat) 0 7 2) 0 = some 9 :=
  (enqueue_after_min_eligible (State.empty : State Nat) 0 7 2
    (by decide)).1 rfl

/-- C1: an enqueue racing with an in-flight reconcile is never lost —
if `enqueue(key)` happens while the key is in-flight, then after
`done(key)` the key is pending again with eligible time equal to the
moment `done` ran (immediately eligible), there is exactly one pending
item for it, the queue can dequeue it at that very moment, and that
dequeue removes it, so it is dequeued exactly once more. -/
theorem enqueue_while_inflight_not_lost {K : Type} [DecidableEq K]
    (s : State K) (k : K) (now doneAt : Nat)
    (hs : Reachable s) (hk : k ∈ s.inFlight) :
    lookupPending (markDone (enqueue s k now) k doneAt) k = some doneAt ∧
    pendingCount (markDone (enqueue s k now) k doneAt) k = 1 ∧
    Reachable (dequeue (markDone (enqueue s k now) k doneAt) k) ∧
    lookupPending (dequeue (markDone (enqueue s k now) k doneAt) k) k =
      none := by
  have hpend1 : (enqueue s k now).pending = s.pending := by
    unfold enqueue
    rw [if_pos hk]
    by_cases hd : k ∈ s.dirty
    · rw [if_pos hd]
    · rw [if_neg hd]
  have hin1 : (enqueue s k now).inFlight = s.inFlight := by
    unfold enqueue
    rw [if_pos hk]
    by_cases hd : k ∈ s.dirty
    · rw [if_pos hd]
    · rw [if_neg hd]
  have hd1 : k ∈ (enqueue s k now).dirty := by
    unfold enqueue
    rw [if_pos hk]
    by_cases hd : k ∈ s.dirty
    · rw [if_pos hd]; exact hd
    · rw [if_neg hd]; exact List.mem_cons_self k s.dirty
  have h2 : markDone (enqueue s k now) k doneAt =
      ⟨(k, doneAt) :: s.pending,
        (enqueue s k now).inFlight.filter (fun j => decide (j ≠ k)),
        (enqueue s k now).dirty.filter (fun j => decide (j ≠ k))⟩ := by
    unfold markDone
    rw [if_pos hd1, hpend1]
  obtain ⟨hnd, hdis, hdin⟩ := reachable_inv hs
  have hkp : k ∉ pendingKeys s := fun hm => hdis k hm hk
  have hlook : lookupPending (markDone (enqueue s k now) k doneAt) k =
      some doneAt := by
    rw [h2]
    exact lookupPending_head s.pending _ _ k doneAt
  refine ⟨hlook, ?_, ?_, ?_⟩
  · rw [h2, pendingCount_head]
    have h0 : pendingCount (⟨s.pending,
        (enqueue s k now).inFlight.filter (fun j => decide (j ≠ k)),
        (enqueue s k now).dirty.filter (fun j => decide (j ≠ k))⟩ : State K) k =
        0 := pendingCount_eq_zero hkp
    rw [h0]
  · exact Reachable.deq k doneAt doneAt
      (Reachable.fin k doneAt (Reachable.enq k now hs) (hin1.symm ▸ hk))
      hlook (le_refl doneAt)
  · exact lookupPending_dequeue _ k

/-- Witness for C1 on a concrete run: enqueue key 0, dequeue it (now
in-flight), enqueue it again while in-flight, call done at time 2. -/
theorem enqueue_while_inflight_not_lost_witness :
    lookupPending (markDone (enqueue (dequeue (enqueue
      (State.empty : State Nat) 0 0) 0) 0 1) 0 2) 0 = some 2 ∧
    pendingCount (markDone (enqueue (dequeue (enqueue
      (State.empty : State Nat) 0 0) 0) 0 1) 0 2) 0 = 1 ∧
    Reachable (dequeue (markDone (enqueue (dequeue (enqueue
      (State.empty : State Nat) 0 0) 0) 0 1) 0 2) 0) ∧
    lookupPending (dequeue (markDone (enqueue (dequeue (enqueue
      (State.empty : State Nat) 0 0) 0) 0 1) 0 2) 0) 0 = none :=
  enqueue_while_inflight_not_lost
    (dequeue (enqueue (State.empty : State Nat) 0 0) 0) 0 1 2
    (Reachable.deq 0 0 0 (Reachable.enq 0 0 Reachable.init) rfl (le_refl 0))
    (by decide)

/-- C8: in the end-to-end scenario — one `MainThing` and one
`RefererThing` referencing it — the nine sequential patches of the
referer's integer field (values 1..9) trigger exactly nine reconciles of
`my-main-thing`, one per patch, each placed after the patch that caused
it and before the next patch. -/
theorem run_iteration_nine_reconciles :
    (run_iteration_trace.filter is_main_reconcile).length = 9 ∧
    run_iteration_trace =
      [TraceEvent.patch 1, TraceEvent.reconcile "my-main-thing",
       TraceEvent.patch 2, TraceEvent.reconcile "my-main-thing",
       TraceEvent.patch 3, TraceEvent.reconcile "my-main-thing",
       TraceEvent.patch 4, TraceEvent.reconcile "my-main-thing",
       TraceEvent.patch 5, TraceEvent.reconcile "my-main-thing",
       TraceEvent.patch 6, TraceEvent.reconcile "my-main-thing",
       TraceEvent.patch 7, TraceEvent.reconcile "my-main-thing",
       TraceEvent.patch 8, TraceEvent.reconcile "my-main-thing",
       TraceEvent.patch 9, TraceEvent.reconcile "my-main-thing"] := by
  exact ⟨rfl, rfl⟩

end CrdWatcher
